import Mathlib

/-!
# ReiStandard — formal model of the multi-tenant scheduling/delivery engine

A shallow embedding, in Lean 4, of the core server code of the ReiStandard
repository (`packages/rei-standard-amsg/server/src/server` and the tenant /
token libraries), together with theorems settling the frozen claims about
the natural-language specification.

Conventions used throughout the embedding:
* JavaScript timestamps (`Date.now()`, `new Date(s).getTime()`) are `Int`
  epoch milliseconds (token code uses epoch seconds, also `Int`).
* External collaborators (the AES-256-GCM core of Node's `crypto`, HMAC,
  `JSON.parse`/`JSON.stringify`, the web-push transport, the SQL engine)
  are parameters of the model; everything the repository itself computes
  (envelope assembly, hex/base64 text codecs, splitting, validation,
  state transitions) is embedded concretely and executably.
* A storage call that may `throw` is modelled by a boolean oracle telling
  whether that particular call throws; `try/catch` becomes a `match`/`if`
  on that oracle.
-/

namespace ReiStandard

/-! ## Dispatcher state machine
Embedding of `handlers/send-notifications.js` (`createSendNotificationsHandler`):
`handleDeliveryFailure`, `handlePostSendPersistenceFailure`, `processTask`. -/

namespace Dispatch

/-- `status` column of a `scheduled_messages` row. -/
inductive TaskStatus where
  | pending
  | sent
  | failed
deriving DecidableEq, Repr

/-- The plaintext columns of a task row that the dispatcher reads/writes.
`next_send_at` is epoch milliseconds (`new Date(task.next_send_at).getTime()`). -/
structure TaskRow where
  id : Nat
  retry_count : Nat
  next_send_at : Int
  status : TaskStatus
deriving DecidableEq, Repr

/-- The partial-field object passed to `ctx.db.updateTaskById(task.id, {...})`.
Only the columns the dispatcher ever touches appear. -/
structure UpdateFields where
  status : Option TaskStatus := none
  next_send_at : Option Int := none
  retry_count : Option Nat := none
deriving DecidableEq, Repr

/-- Adapter semantics of `updateTaskById`: set exactly the supplied columns. -/
def applyUpdate (row : TaskRow) (f : UpdateFields) : TaskRow :=
  { row with
    status := f.status.getD row.status
    next_send_at := f.next_send_at.getD row.next_send_at
    retry_count := f.retry_count.getD row.retry_count }

/-- A storage mutation *attempted* by the dispatcher (whether or not the
underlying call then throws). -/
inductive DbOp where
  | update (id : Nat) (fields : UpdateFields)
  | delete (id : Nat)
deriving DecidableEq, Repr

/-- One entry of `results.failedTasks` (shape varies per branch in the JS;
`marker` is the `status` field of the entry when present). -/
structure FailEntry where
  taskId : Nat
  reason : String
  marker : Option String := none
  messageDelivered : Bool := false
deriving DecidableEq, Repr

/-- Everything `processTask` did to the world:
the attempted storage calls, the surviving row (`none` = deleted),
the counters and diagnostics, and how many times the delivery routine
(`processSingleMessage`, i.e. the transport) was invoked for this task. -/
structure RunResult where
  ops : List DbOp
  row : Option TaskRow
  successCount : Nat := 0
  failedCount : Nat := 0
  deletedOnceOffTasks : Nat := 0
  updatedRecurringTasks : Nat := 0
  failedTasks : List FailEntry := []
  deliveryCalls : Nat := 0
deriving DecidableEq, Repr

/-- Environment of one `processTask` call: the clock, the outcome of the
delivery attempt (`none` = success, `some reason` = failure or exception of
`processSingleMessage`), the `recurrenceType` read back from the re-decrypted
payload, and one throw-oracle per storage call site. -/
structure Env where
  now : Int
  deliveryResult : Option String
  recurrenceType : String
  failureUpdateThrows : Bool := false
  successDeleteThrows : Bool := false
  successUpdateThrows : Bool := false
  fallbackUpdateThrows : Bool := false
deriving DecidableEq, Repr

/-- `{ status: 'sent', retry_count: 0 }` — the best-effort fallback write. -/
def markSentFields : UpdateFields :=
  { status := some .sent, retry_count := some 0 }

/-- Embedding of `handleDeliveryFailure(task, reason)`:
`retry_count >= 3` moves the row to terminal `failed`; otherwise the row is
requeued with `retry_count + 1` and `next_send_at = now + (retry_count+1) * 2min`;
if the update itself throws only a diagnostic entry is recorded. -/
def handleDeliveryFailure (env : Env) (task : TaskRow) (reason : String) : RunResult :=
  if 3 ≤ task.retry_count then
    let fields : UpdateFields := { status := some .failed }
    if env.failureUpdateThrows then
      { ops := [.update task.id fields], row := some task
        failedCount := 1, deliveryCalls := 1
        failedTasks := [{ taskId := task.id, reason, marker := some "retry_update_failed" }] }
    else
      { ops := [.update task.id fields], row := some (applyUpdate task fields)
        failedCount := 1, deliveryCalls := 1
        failedTasks := [{ taskId := task.id, reason, marker := some "permanently_failed" }] }
  else
    let nextRetryTime : Int := env.now + ((task.retry_count : Int) + 1) * 2 * 60 * 1000
    let fields : UpdateFields :=
      { next_send_at := some nextRetryTime, retry_count := some (task.retry_count + 1) }
    if env.failureUpdateThrows then
      { ops := [.update task.id fields], row := some task
        failedCount := 1, deliveryCalls := 1
        failedTasks := [{ taskId := task.id, reason, marker := some "retry_update_failed" }] }
    else
      { ops := [.update task.id fields], row := some (applyUpdate task fields)
        failedCount := 1, deliveryCalls := 1
        failedTasks := [{ taskId := task.id, reason, marker := none }] }

/-- Embedding of `handlePostSendPersistenceFailure(task, reason)`:
one best-effort write of `{status:'sent', retry_count:0}`, then a diagnostic
entry with `messageDelivered: true` either way. -/
def handlePostSendPersistenceFailure (env : Env) (task : TaskRow) (reason : String) :
    RunResult :=
  if env.fallbackUpdateThrows then
    { ops := [.update task.id markSentFields], row := some task
      failedCount := 1, deliveryCalls := 1
      failedTasks := [{ taskId := task.id, reason
                        marker := some "post_send_cleanup_failed", messageDelivered := true }] }
  else
    { ops := [.update task.id markSentFields], row := some (applyUpdate task markSentFields)
      failedCount := 1, deliveryCalls := 1
      failedTasks := [{ taskId := task.id, reason
                        marker := some "post_send_cleanup_failed_marked_sent"
                        messageDelivered := true }] }

/-- Milliseconds in 24 hours. -/
def dayMs : Int := 24 * 60 * 60 * 1000

/-- Milliseconds in 7 days. -/
def weekMs : Int := 7 * 24 * 60 * 60 * 1000

/-- Embedding of `processTask(task)` from `createSendNotificationsHandler`.
The delivery routine runs exactly once; on failure control goes to
`handleDeliveryFailure`; on success the payload's `recurrenceType` decides
between row deletion and a drift-free recurrence update, and any throw on
that success path (including the `nextSendAt.toISOString()` `TypeError`
when `recurrenceType` is out of range) lands in
`handlePostSendPersistenceFailure`. The fallback ops of the failure handlers
are appended after the attempted success-path mutation. -/
def processTask (env : Env) (task : TaskRow) : RunResult :=
  match env.deliveryResult with
  | some reason => handleDeliveryFailure env task reason
  | none =>
    if env.recurrenceType = "none" then
      if env.successDeleteThrows then
        let fallback := handlePostSendPersistenceFailure env task "发送后状态更新失败"
        { fallback with ops := .delete task.id :: fallback.ops }
      else
        { ops := [.delete task.id], row := none
          successCount := 1, deletedOnceOffTasks := 1, deliveryCalls := 1 }
    else if env.recurrenceType = "daily" ∨ env.recurrenceType = "weekly" then
      let nextSendAt : Int :=
        if env.recurrenceType = "daily" then task.next_send_at + dayMs
        else task.next_send_at + weekMs
      let fields : UpdateFields := { next_send_at := some nextSendAt, retry_count := some 0 }
      if env.successUpdateThrows then
        let fallback := handlePostSendPersistenceFailure env task "发送后状态更新失败"
        { fallback with ops := .update task.id fields :: fallback.ops }
      else
        { ops := [.update task.id fields], row := some (applyUpdate task fields)
          successCount := 1, updatedRecurringTasks := 1, deliveryCalls := 1 }
    else
      -- `nextSendAt` stays `undefined`; `.toISOString()` throws before any db call
      handlePostSendPersistenceFailure env task "发送后状态更新失败"

/-- Whether a `DbOp` is the fallback write `{status:'sent', retry_count:0}`. -/
def isFallbackWrite (id : Nat) : DbOp → Bool
  | .update i f => i = id && f = markSentFields
  | .delete _ => false

/-- Concrete run for the C1 counterexample: delivery succeeds, the one-shot
row delete throws, and the fallback write throws as well. -/
def c1Env : Env :=
  { now := 0, deliveryResult := none, recurrenceType := "none"
    successDeleteThrows := true, fallbackUpdateThrows := true }

/-- Concrete pending task row used in the C1 counterexample. -/
def c1Task : TaskRow :=
  { id := 1, retry_count := 0, next_send_at := 0, status := .pending }

end Dispatch

open Dispatch

/-- Claim C1, as stated, is false at this input: delivery succeeded exactly
once, the success-path delete threw, the fallback write also threw — and the
row IS left `pending`, exactly the state a future sweep re-sends. -/
theorem claim_C1_counterexample :
    c1Env.deliveryResult = none ∧
    c1Env.successDeleteThrows = true ∧
    (processTask c1Env c1Task).deliveryCalls = 1 ∧
    (processTask c1Env c1Task).row.map TaskRow.status = some .pending := by
  decide

/-- Claim C1 (amended): whenever delivery succeeds and the success-path storage
mutation (row delete for `recurrenceType = "none"`, recurrence update for
`"daily"`/`"weekly"`) throws, `processTask` attempts exactly one fallback write
of `{status:'sent', retry_count:0}`, invokes the delivery routine exactly once,
and reports the task in `failedTasks` with `messageDelivered: true`; and
whenever that fallback write does not itself throw, the row ends in status
`sent` (not `pending`). -/
theorem claim_C1_amended (env : Env) (task : TaskRow)
    (hdeliv : env.deliveryResult = none)
    (hthrow :
      (env.recurrenceType = "none" ∧ env.successDeleteThrows = true) ∨
      ((env.recurrenceType = "daily" ∨ env.recurrenceType = "weekly") ∧
        env.successUpdateThrows = true)) :
    ((processTask env task).ops.filter (isFallbackWrite task.id)).length = 1 ∧
    (processTask env task).deliveryCalls = 1 ∧
    (∃ e ∈ (processTask env task).failedTasks,
        e.taskId = task.id ∧ e.messageDelivered = true) ∧
    (env.fallbackUpdateThrows = false →
      (processTask env task).row.map TaskRow.status = some .sent) := by
  have hne : ("daily" : String) ≠ "none" := by decide
  have hnw : ("weekly" : String) ≠ "none" := by decide
  rcases hthrow with ⟨hrec, hth⟩ | ⟨hrec, hth⟩
  · -- one-shot branch: the delete throws
    cases hfb : env.fallbackUpdateThrows <;>
      simp [processTask, hdeliv, hrec, hth, hfb, handlePostSendPersistenceFailure,
        isFallbackWrite, markSentFields, applyUpdate]
  · -- recurring branch: the update throws
    rcases hrec with hrec | hrec <;>
      cases hfb : env.fallbackUpdateThrows <;>
        simp [processTask, hdeliv, hrec, hth, hfb, hne, hnw,
          handlePostSendPersistenceFailure, isFallbackWrite, markSentFields, applyUpdate]

/-- Witness for `claim_C1_amended` at a concrete input (delete throws,
fallback succeeds). -/
theorem claim_C1_amended_witness :
    ((processTask { c1Env with fallbackUpdateThrows := false } c1Task).row.map
        TaskRow.status = some .sent) ∧
    ((processTask { c1Env with fallbackUpdateThrows := false } c1Task).ops.filter
        (isFallbackWrite c1Task.id)).length = 1 := by
  have h := claim_C1_amended { c1Env with fallbackUpdateThrows := false } c1Task
    rfl (Or.inl ⟨rfl, rfl⟩)
  exact ⟨h.2.2.2 rfl, h.1⟩

/-- Claim C2: on delivery failure with a working storage layer, a task with
`retry_count ≥ 3` is moved to terminal `failed`; otherwise `retry_count` is
incremented, `next_send_at` becomes `now + (retry_count+1) * 2` minutes, the
row stays `pending`, and the incremented count never exceeds 3. -/
theorem claim_C2 (env : Env) (task : TaskRow) (reason : String)
    (hok : env.failureUpdateThrows = false)
    (hpend : task.status = .pending)
    (hrc : task.retry_count ≤ 3) :
    (3 ≤ task.retry_count →
      (handleDeliveryFailure env task reason).row =
        some { task with status := .failed }) ∧
    (task.retry_count < 3 →
      (handleDeliveryFailure env task reason).row =
        some { task with
               next_send_at := env.now + ((task.retry_count : Int) + 1) * 2 * 60 * 1000,
               retry_count := task.retry_count + 1 } ∧
      task.retry_count + 1 ≤ 3 ∧
      (handleDeliveryFailure env task reason).row.map TaskRow.status =
        some .pending) := by
  constructor
  · intro h3
    simp [handleDeliveryFailure, h3, hok, applyUpdate]
  · intro hlt
    have h3 : ¬ (3 ≤ task.retry_count) := by omega
    refine ⟨?_, by omega, ?_⟩ <;>
      simp [handleDeliveryFailure, h3, hok, applyUpdate, hpend]

/-- Witness for `claim_C2` at a concrete input (`retry_count = 2`). -/
theorem claim_C2_witness :
    (handleDeliveryFailure
      { now := 1000, deliveryResult := some "boom", recurrenceType := "none" }
      { id := 7, retry_count := 2, next_send_at := 0, status := .pending } "boom").row =
      some { id := 7, retry_count := 3, next_send_at := 1000 + 3 * 2 * 60 * 1000,
             status := .pending } := by
  have h := claim_C2 { now := 1000, deliveryResult := some "boom", recurrenceType := "none" }
    { id := 7, retry_count := 2, next_send_at := 0, status := .pending } "boom"
    rfl rfl (by decide)
  have h2 := (h.2 (by decide)).1
  rw [h2]
  norm_num

/-- Claim C4: on delivery success, `recurrenceType = "none"` deletes the row;
`"daily"` / `"weekly"` set the new `next_send_at` to the prior value plus
exactly 24 hours / 7 days (computed from the prior `next_send_at`, not from
the clock) and reset `retry_count` to 0. -/
theorem claim_C4 (env : Env) (task : TaskRow)
    (hdeliv : env.deliveryResult = none) :
    (env.recurrenceType = "none" → env.successDeleteThrows = false →
      (processTask env task).row = none ∧
      (processTask env task).deletedOnceOffTasks = 1) ∧
    (env.recurrenceType = "daily" → env.successUpdateThrows = false →
      (processTask env task).row =
        some { task with
               next_send_at := task.next_send_at + 24 * 60 * 60 * 1000,
               retry_count := 0 }) ∧
    (env.recurrenceType = "weekly" → env.successUpdateThrows = false →
      (processTask env task).row =
        some { task with
               next_send_at := task.next_send_at + 7 * 24 * 60 * 60 * 1000,
               retry_count := 0 }) := by
  refine ⟨fun hrec hok => ?_, fun hrec hok => ?_, fun hrec hok => ?_⟩ <;>
    simp [processTask, hdeliv, hrec, hok, applyUpdate, dayMs, weekMs]

/-- Witness for `claim_C4` at a concrete input (a `daily` task): the new
`next_send_at` is the prior value plus exactly 24 hours even though the
dispatch ran much later (`now = 999999`). -/
theorem claim_C4_witness :
    (processTask { now := 999999, deliveryResult := none, recurrenceType := "daily" }
        { id := 3, retry_count := 2, next_send_at := 5000, status := .pending }).row =
      some { id := 3, retry_count := 0, next_send_at := 5000 + 24 * 60 * 60 * 1000,
             status := .pending } := by
  have h := claim_C4 { now := 999999, deliveryResult := none, recurrenceType := "daily" }
    { id := 3, retry_count := 2, next_send_at := 5000, status := .pending } rfl
  exact h.2.1 rfl rfl

/-! ## AI completion request body
Embedding of `_callAI(payload)` from `lib/message-processor.js` (and the
identical body construction in the v2 processor): the JSON body handed to
`fetch(payload.apiUrl, ...)`. -/

namespace CallAI

/-- The decrypted payload fields `_callAI` reads. `maxTokens` is the task's
stored optional token limit (`null`/absent modelled as `none`). -/
structure AiPayload where
  apiUrl : String
  apiKey : String
  primaryModel : String
  completePrompt : String
  maxTokens : Option Nat
deriving DecidableEq, Repr

/-- The request body `_callAI` serializes: `{model, messages: [{role:'user',
content: completePrompt}], max_tokens: 500, temperature: 0.8}`. `max_tokens`
is an `Option` so that an omitted field is representable (`none`); the source
always writes the literal `500`. `temperature` is kept in tenths to stay in
exact arithmetic. -/
structure AiRequestBody where
  model : String
  userContent : String
  max_tokens : Option Nat
  temperatureTenths : Nat
deriving DecidableEq, Repr

/-- Embedding of the body construction inside `_callAI`. -/
def buildAiRequestBody (p : AiPayload) : AiRequestBody :=
  { model := p.primaryModel
    userContent := p.completePrompt
    max_tokens := some 500
    temperatureTenths := 8 }

/-- A task payload carrying `maxTokens: 256`. -/
def payloadWith256 : AiPayload :=
  { apiUrl := "https://api.example.com/v1/chat/completions", apiKey := "secret"
    primaryModel := "model-x", completePrompt := "say hi", maxTokens := some 256 }

/-- The same payload with `maxTokens` absent. -/
def payloadNoMax : AiPayload := { payloadWith256 with maxTokens := none }

end CallAI

open CallAI

/-- Claim C8 (code evaluation at the failing input): the request body sent to
the completion endpoint carries `max_tokens: 500` even when the task stores
`maxTokens: 256`, and still carries `max_tokens: 500` (instead of omitting the
field) when the task has no `maxTokens` — contradicting the claim and the
repository's own tests (`test/message-processor.test.mjs`), which assert that
`max_tokens` equals the stored value and is absent otherwise. -/
theorem claim_C8_failing_eval :
    payloadWith256.maxTokens = some 256 ∧
    (buildAiRequestBody payloadWith256).max_tokens = some 500 ∧
    payloadNoMax.maxTokens = none ∧
    (buildAiRequestBody payloadNoMax).max_tokens = some 500 := by
  refine ⟨rfl, rfl, rfl, rfl⟩

/-! ## Storage adapter row semantics and the cancel handler
Embedding of `adapters/neon.js` (`updateTaskByUuid`, `deleteTaskByUuid`;
`pg.js` is identical on these queries) and of `createCancelMessageHandler`
from `handlers/schedule-message.js`. -/

namespace Adapter

open Dispatch (TaskStatus)

/-- The columns of a `scheduled_messages` row relevant to update/cancel. -/
structure Row where
  id : Nat
  uuid : String
  user_id : String
  status : TaskStatus
  encrypted_payload : String
  next_send_at : Int
deriving DecidableEq, Repr

/-- The `WHERE uuid = $.. AND user_id = $.. AND status = 'pending'` filter of
`updateTaskByUuid`. -/
def updMatches (uuid userId : String) (r : Row) : Bool :=
  r.uuid = uuid && r.user_id = userId && r.status = .pending

/-- Effect of `updateTaskByUuid` on one row: rows passing the pending-only
filter get the new payload (and `next_send_at` when supplied); all others are
untouched. -/
def updRow (uuid userId payload : String) (extraNextSendAt : Option Int) (r : Row) : Row :=
  if updMatches uuid userId r then
    { r with
      encrypted_payload := payload
      next_send_at := extraNextSendAt.getD r.next_send_at }
  else r

/-- Embedding of `NeonAdapter.updateTaskByUuid`: `UPDATE ... WHERE uuid AND
user_id AND status = 'pending' RETURNING ...`; the returned value is the first
updated row (`null` when nothing matched). -/
def updateTaskByUuid (table : List Row) (uuid userId payload : String)
    (extraNextSendAt : Option Int) : Option Row × List Row :=
  let table' := table.map (updRow uuid userId payload extraNextSendAt)
  (table'.find? (updMatches uuid userId), table')

/-- Embedding of `NeonAdapter.deleteTaskByUuid`: `DELETE ... WHERE uuid AND
user_id RETURNING id` — note: no status filter. Returns `rows.length > 0`. -/
def deleteTaskByUuid (table : List Row) (uuid userId : String) : Bool × List Row :=
  (table.any (fun r => r.uuid = uuid && r.user_id = userId),
   table.filter (fun r => ¬ (r.uuid = uuid ∧ r.user_id = userId)))

/-- Embedding of `createCancelMessageHandler`'s `DELETE` route. `none` models
a missing (or empty, hence falsy) `id` query parameter / `x-user-id` header.
Returns the HTTP status and the resulting table. -/
def cancelMessage (table : List Row) (taskUuid userId : Option String) :
    Nat × List Row :=
  match taskUuid with
  | none => (400, table)
  | some u =>
    match userId with
    | none => (400, table)
    | some uid =>
      let res := deleteTaskByUuid table u uid
      if res.1 then (200, res.2) else (404, res.2)

/-- A task row already in the terminal `sent` state. -/
def sentRow : Row :=
  { id := 1, uuid := "u-1", user_id := "alice", status := .sent
    encrypted_payload := "blob", next_send_at := 0 }

end Adapter

open Adapter

/-- Claim C9, as stated, is false at this input: a cancel request for a task
whose status is terminal (`sent`) deletes the row and answers 200. -/
theorem claim_C9_counterexample :
    sentRow.status = Dispatch.TaskStatus.sent ∧
    cancelMessage [sentRow] (some "u-1") (some "alice") = (200, []) := by
  constructor
  · rfl
  · simp [cancelMessage, deleteTaskByUuid, sentRow]

/-- Claim C9 (amended): an authorized update is permitted only while the task
is `pending` — `updateTaskByUuid` rewrites exactly the rows passing the
pending-only filter and leaves every non-pending row untouched, returning
`null` when no pending row matched; a cancel request, however, deletes the
matching row regardless of its status (terminal rows included). -/
theorem claim_C9_amended (table : List Row) (uuid userId payload : String)
    (extra : Option Int) :
    ((updateTaskByUuid table uuid userId payload extra).2 =
        table.map (updRow uuid userId payload extra) ∧
      (∀ r : Row, r.status ≠ .pending → updRow uuid userId payload extra r = r) ∧
      ((∀ r ∈ table, updMatches uuid userId r = false) →
        (updateTaskByUuid table uuid userId payload extra).1 = none)) ∧
    (∀ r ∈ table, r.uuid = uuid → r.user_id = userId →
      r ∉ (cancelMessage table (some uuid) (some userId)).2) := by
  refine ⟨⟨rfl, ?_, ?_⟩, ?_⟩
  · intro r hr
    simp [updRow, updMatches, hr]
  · intro hnone
    simp only [updateTaskByUuid, List.find?_eq_none, List.mem_map]
    rintro x ⟨r, hr, rfl⟩
    have hm := hnone r hr
    simp [updRow, hm]
  · intro r hr h1 h2
    have hany : (deleteTaskByUuid table uuid userId).1 = true := by
      simp only [deleteTaskByUuid]
      exact List.any_eq_true.mpr ⟨r, hr, by simp [h1, h2]⟩
    simp only [cancelMessage, hany, if_true]
    intro hmem
    have := List.of_mem_filter (l := table) hmem
    simp [h1, h2] at this

/-- Witness for `claim_C9_amended` at a concrete input: the `sent` row is not
touched by an update, and is gone after a cancel. -/
theorem claim_C9_amended_witness :
    updRow "u-1" "alice" "new" none sentRow = sentRow ∧
    sentRow ∉ (cancelMessage [sentRow] (some "u-1") (some "alice")).2 := by
  have h := claim_C9_amended [sentRow] "u-1" "alice" "new" none
  exact ⟨h.1.2.1 sentRow (by decide), h.2 sentRow (by simp) rfl rfl⟩

/-! ## Sentence splitting
Embedding of the splitter in `processSingleMessage`
(`lib/message-processor.js`): `messageContent.split(/([。！？!?]+)/)` followed
by the pairing `reduce`, the non-empty filter, and the final one-unit
fallback. Strings are handled as `List Char`; `String.prototype.trim` is
modelled by `trimChars`. -/

namespace Split

/-- The character class of the splitting regex `[。！？!?]`. Note that the
ASCII full stop `.` is NOT in the class. -/
def isTerm (c : Char) : Bool :=
  c = '。' || c = '！' || c = '？' || c = '!' || c = '?'

/-- Model of `String.prototype.trim`: drop whitespace from both ends. -/
def trimChars (l : List Char) : List Char :=
  ((l.dropWhile Char.isWhitespace).reverse.dropWhile Char.isWhitespace).reverse

/-- Worker for the capture-group split: walks the text accumulating the
current chunk (reversed) and whether it is a separator chunk, emitting the
alternating `text, sep, …, text` list that `String.prototype.split` with a
capturing group produces (leading/trailing empty text segments included). -/
def splitRunsAux : List Char → List Char → Bool → List (List Char)
  | [], cur, isSep => if isSep then [cur.reverse, []] else [cur.reverse]
  | c :: rest, cur, isSep =>
    if isTerm c = isSep then splitRunsAux rest (c :: cur) isSep
    else cur.reverse :: splitRunsAux rest [c] (isTerm c)

/-- Embedding of `messageContent.split(/([。！？!?]+)/)`. -/
def splitRuns (l : List Char) : List (List Char) :=
  splitRunsAux l [] false

/-- Embedding of the `reduce`: for every even position whose trimmed text is
non-empty, push `part.trim() + (arr[i+1] || '')`. -/
def collect : List (List Char) → List (List Char)
  | [] => []
  | [t] => if trimChars t = [] then [] else [trimChars t]
  | t :: sep :: rest =>
    if trimChars t = [] then collect rest
    else (trimChars t ++ sep) :: collect rest

/-- The `sentences` value: reduce result filtered to non-empty entries. -/
def sentencesOf (text : List Char) : List (List Char) :=
  (collect (splitRuns text)).filter (fun s => s.length > 0)

/-- The delivery units: `sentences.length > 0 ? sentences : [messageContent]`. -/
def messagesOf (text : List Char) : List (List Char) :=
  let sentences := sentencesOf text
  if sentences.length > 0 then sentences else [text]

/-- Concatenation of a decomposition into (text, terminator-run) pairs. -/
def joinPairs : List (List Char × List Char) → List Char
  | [] => []
  | p :: ps => p.1 ++ (p.2 ++ joinPairs ps)

theorem splitRunsAux_accum (p : Bool) :
    ∀ (t rest cur : List Char), (∀ c ∈ t, isTerm c = p) →
      splitRunsAux (t ++ rest) cur p = splitRunsAux rest (t.reverse ++ cur) p := by
  intro t
  induction t with
  | nil => intro rest cur _; simp
  | cons c t' ih =>
    intro rest cur hall
    have hc : isTerm c = p := hall c (by simp)
    have ht' : ∀ x ∈ t', isTerm x = p := fun x hx => hall x (by simp [hx])
    show splitRunsAux (c :: (t' ++ rest)) cur p = _
    rw [splitRunsAux, if_pos hc, ih rest (c :: cur) ht']
    congr 1
    simp

theorem splitRunsAux_close (rest cur : List Char)
    (h : rest = [] ∨ ∃ r₀ r', rest = r₀ :: r' ∧ isTerm r₀ = false) :
    splitRunsAux rest cur true = cur.reverse :: splitRuns rest := by
  rcases h with rfl | ⟨r₀, r', rfl, hr⟩
  · simp [splitRunsAux, splitRuns]
  · simp [splitRunsAux, splitRuns, hr]

theorem splitRuns_cons (t sep rest : List Char)
    (ht : ∀ c ∈ t, isTerm c = false)
    (hsep : sep ≠ [] ∧ ∀ c ∈ sep, isTerm c = true)
    (hrest : rest = [] ∨ ∃ r₀ r', rest = r₀ :: r' ∧ isTerm r₀ = false) :
    splitRuns (t ++ sep ++ rest) = t :: sep :: splitRuns rest := by
  obtain ⟨hne, hterm⟩ := hsep
  obtain ⟨s₀, s', rfl⟩ : ∃ s₀ s', sep = s₀ :: s' := by
    cases sep with
    | nil => exact absurd rfl hne
    | cons a b => exact ⟨a, b, rfl⟩
  have hs₀ : isTerm s₀ = true := hterm s₀ (by simp)
  have hs' : ∀ c ∈ s', isTerm c = true := fun c hc => hterm c (by simp [hc])
  unfold splitRuns
  rw [List.append_assoc, splitRunsAux_accum false t (s₀ :: s' ++ rest) [] ht]
  simp only [List.cons_append, splitRunsAux, hs₀, List.append_eq]
  rw [if_neg (by simp), splitRunsAux_accum true s' rest [s₀] hs',
    splitRunsAux_close rest (s'.reverse ++ [s₀]) hrest]
  simp [splitRuns]

theorem joinPairs_shape (pairs : List (List Char × List Char)) (last : List Char)
    (hpairs : ∀ q ∈ pairs, q.1 ≠ [] ∧ (∀ c ∈ q.1, isTerm c = false))
    (hlast : ∀ c ∈ last, isTerm c = false) :
    joinPairs pairs ++ last = [] ∨
      ∃ r₀ r', joinPairs pairs ++ last = r₀ :: r' ∧ isTerm r₀ = false := by
  cases pairs with
  | nil =>
    cases last with
    | nil => exact Or.inl rfl
    | cons a b => exact Or.inr ⟨a, b, rfl, hlast a (by simp)⟩
  | cons q ps =>
    obtain ⟨hne, hfree⟩ := hpairs q (by simp)
    cases hq1 : q.1 with
    | nil => exact absurd hq1 hne
    | cons a b =>
      refine Or.inr ⟨a, b ++ (q.2 ++ joinPairs ps ++ last), ?_, hfree a (by rw [hq1]; simp)⟩
      simp [joinPairs, hq1, List.append_assoc]

theorem splitRuns_decomp (pairs : List (List Char × List Char)) (last : List Char)
    (hpairs : ∀ q ∈ pairs,
      (∀ c ∈ q.1, isTerm c = false) ∧ q.2 ≠ [] ∧ (∀ c ∈ q.2, isTerm c = true))
    (htail : ∀ q ∈ pairs.tail, q.1 ≠ [])
    (hlast : ∀ c ∈ last, isTerm c = false) :
    splitRuns (joinPairs pairs ++ last) =
      (pairs.map (fun q => [q.1, q.2])).flatten ++ [last] := by
  induction pairs with
  | nil =>
    simp only [joinPairs, List.nil_append, List.map_nil, List.flatten_nil]
    unfold splitRuns
    rw [show last = last ++ [] by simp, splitRunsAux_accum false last [] [] hlast]
    simp [splitRunsAux]
  | cons q ps ih =>
    have hq := hpairs q (by simp)
    have hps : ∀ r ∈ ps, (∀ c ∈ r.1, isTerm c = false) ∧
        r.2 ≠ [] ∧ (∀ c ∈ r.2, isTerm c = true) :=
      fun r hr => hpairs r (by simp [hr])
    have hpsne : ∀ r ∈ ps, r.1 ≠ [] := fun r hr => htail r hr
    have htail' : ∀ r ∈ ps.tail, r.1 ≠ [] :=
      fun r hr => hpsne r (List.mem_of_mem_tail hr)
    have hshape := joinPairs_shape ps last
      (fun r hr => ⟨hpsne r hr, (hps r hr).1⟩) hlast
    have step := splitRuns_cons q.1 q.2 (joinPairs ps ++ last)
      hq.1 ⟨hq.2.1, hq.2.2⟩ hshape
    calc splitRuns (joinPairs (q :: ps) ++ last)
        = splitRuns (q.1 ++ q.2 ++ (joinPairs ps ++ last)) := by
          simp [joinPairs, List.append_assoc]
      _ = q.1 :: q.2 :: splitRuns (joinPairs ps ++ last) := step
      _ = q.1 :: q.2 :: ((ps.map (fun r => [r.1, r.2])).flatten ++ [last]) := by
          rw [ih hps htail']
      _ = ((q :: ps).map (fun r => [r.1, r.2])).flatten ++ [last] := by simp

theorem collect_decomp (pairs : List (List Char × List Char)) (last : List Char) :
    collect ((pairs.map (fun q => [q.1, q.2])).flatten ++ [last]) =
      (pairs.map (fun q =>
        if trimChars q.1 = [] then [] else [trimChars q.1 ++ q.2])).flatten ++
        (if trimChars last = [] then [] else [trimChars last]) := by
  induction pairs with
  | nil =>
    simp only [List.map_nil, List.flatten_nil, List.nil_append]
    by_cases h : trimChars last = [] <;> simp [collect, h]
  | cons q ps ih =>
    simp only [List.map_cons, List.flatten_cons, List.cons_append, List.append_assoc]
    show collect (q.1 :: q.2 :: _) = _
    by_cases h : trimChars q.1 = []
    · rw [collect, if_pos h]
      simp only [List.nil_append]
      rw [ih, if_pos h]
      simp
    · rw [collect, if_neg h]
      simp only [List.nil_append]
      rw [ih, if_neg h]
      simp

theorem dropWhile_head_false (p : Char → Bool) :
    ∀ (l : List Char) (c : Char) (t : List Char),
      l.dropWhile p = c :: t → p c = false := by
  intro l
  induction l with
  | nil => intro c t h; simp [List.dropWhile] at h
  | cons x xs ih =>
    intro c t h
    rw [List.dropWhile_cons] at h
    by_cases hx : p x = true
    · rw [if_pos hx] at h
      exact ih c t h
    · rw [if_neg hx] at h
      injection h with h1 _
      subst h1
      exact Bool.eq_false_iff.mpr hx

theorem length_dropWhile_le (p : Char → Bool) :
    ∀ l : List Char, (l.dropWhile p).length ≤ l.length := by
  intro l
  induction l with
  | nil => simp [List.dropWhile]
  | cons x xs ih =>
    rw [List.dropWhile_cons]
    by_cases hx : p x = true
    · rw [if_pos hx]
      simp only [List.length_cons]
      omega
    · rw [if_neg hx]

theorem decomp_exists_aux : ∀ (n : Nat) (text : List Char), text.length ≤ n →
    ∃ (pairs : List (List Char × List Char)) (last : List Char),
      (∀ q ∈ pairs,
        (∀ c ∈ q.1, isTerm c = false) ∧ q.2 ≠ [] ∧ (∀ c ∈ q.2, isTerm c = true)) ∧
      (∀ q ∈ pairs.tail, q.1 ≠ []) ∧
      (∀ c ∈ last, isTerm c = false) ∧
      ((text = [] ∨ ∃ c t, text = c :: t ∧ isTerm c = false) →
        ∀ q ∈ pairs, q.1 ≠ []) ∧
      joinPairs pairs ++ last = text := by
  intro n
  induction n with
  | zero =>
    intro text hlen
    have htext : text = [] := List.length_eq_zero.mp (Nat.le_zero.mp hlen)
    subst htext
    exact ⟨[], [], by simp, by simp, by simp, by simp, rfl⟩
  | succ n ih =>
    intro text hlen
    have hsplit0 : text.takeWhile (fun c => !isTerm c) ++
        text.dropWhile (fun c => !isTerm c) = text :=
      List.takeWhile_append_dropWhile _ _
    have ht0 : ∀ c ∈ text.takeWhile (fun c => !isTerm c), isTerm c = false := by
      intro c hc
      have := List.mem_takeWhile_imp hc
      simpa using this
    cases hrest : text.dropWhile (fun c => !isTerm c) with
    | nil =>
      refine ⟨[], text.takeWhile (fun c => !isTerm c), by simp, by simp, ht0,
        by simp, ?_⟩
      rw [joinPairs, List.nil_append]
      rw [hrest] at hsplit0
      simpa using hsplit0
    | cons c rest' =>
      have hc : isTerm c = true := by
        have := dropWhile_head_false (fun c => !isTerm c) text c rest' hrest
        simpa using this
      have hlen2 : (rest'.dropWhile isTerm).length ≤ n := by
        have h1 : (rest'.dropWhile isTerm).length ≤ rest'.length :=
          length_dropWhile_le isTerm rest'
        have h2 : (text.takeWhile (fun c => !isTerm c)).length +
            (c :: rest').length = text.length := by
          rw [← List.length_append, ← hrest, hsplit0]
        simp only [List.length_cons] at h2
        omega
      obtain ⟨pairs', last', h1', h2', h3', h4', hjoin'⟩ :=
        ih (rest'.dropWhile isTerm) hlen2
      have hall' : ∀ q ∈ pairs', q.1 ≠ [] := by
        apply h4'
        cases hr2 : rest'.dropWhile isTerm with
        | nil => exact Or.inl rfl
        | cons d t =>
          refine Or.inr ⟨d, t, rfl, ?_⟩
          exact dropWhile_head_false isTerm rest' d t hr2
      refine ⟨(text.takeWhile (fun c => !isTerm c), c :: rest'.takeWhile isTerm) ::
        pairs', last', ?_, ?_, h3', ?_, ?_⟩
      · intro q hq
        rcases List.mem_cons.mp hq with rfl | hq'
        · refine ⟨ht0, by simp, ?_⟩
          intro x hx
          rcases List.mem_cons.mp hx with rfl | hx'
          · exact hc
          · exact List.mem_takeWhile_imp hx'
        · exact h1' q hq'
      · intro q hq
        exact hall' q hq
      · intro hstart q hq
        rcases List.mem_cons.mp hq with rfl | hq'
        · rcases hstart with htnil | ⟨d, t, htcons, hd⟩
          · exfalso
            rw [htnil] at hrest
            simp [List.dropWhile] at hrest
          · rw [htcons, List.takeWhile_cons, if_pos (by simp [hd])]
            simp
        · exact hall' q hq'
      · have hform : joinPairs ((text.takeWhile (fun c => !isTerm c),
              c :: rest'.takeWhile isTerm) :: pairs') ++ last' =
            text.takeWhile (fun c => !isTerm c) ++
              ((c :: rest'.takeWhile isTerm) ++ (joinPairs pairs' ++ last')) := by
          simp [joinPairs, List.append_assoc]
        rw [hform, hjoin']
        rw [show (c :: rest'.takeWhile isTerm) ++ rest'.dropWhile isTerm =
            c :: rest' from by
          rw [List.cons_append, List.takeWhile_append_dropWhile _ _]]
        rw [← hrest]
        exact hsplit0

end Split

open Split

/-- Claim C7, as stated, is false at this input: the splitter does not break
on the ASCII full stop, so a text containing a period mid-sentence is
delivered as a single unit rather than two. -/
theorem claim_C7_counterexample :
    ('.' ∈ "Hi. Bye".toList) ∧
    messagesOf "Hi. Bye".toList = ["Hi. Bye".toList] := by
  constructor
  · decide
  · decide

/-- Claim C7 (amended): the splitter breaks every text on every run of the
terminator characters `。`, `！`, `？`, `!`, `?` (ASCII `.` is NOT a
terminator). A run is kept attached to the trimmed sentence chunk before it
when that chunk does not trim to empty; a run preceded by an empty or
whitespace-only chunk is dropped together with that chunk; when no unit
survives, the whole text is one unit. First conjunct: this output
characterization, over any canonical decomposition of the text into
alternating terminator-free chunks and terminator runs (interior chunks
non-empty). Second conjunct: every text has such a decomposition, so the
characterization covers all texts. Third conjunct: a text with no terminator
is always exactly one delivery unit. -/
theorem claim_C7_amended :
    (∀ (pairs : List (List Char × List Char)) (last : List Char),
      (∀ q ∈ pairs,
        (∀ c ∈ q.1, isTerm c = false) ∧ q.2 ≠ [] ∧ (∀ c ∈ q.2, isTerm c = true)) →
      (∀ q ∈ pairs.tail, q.1 ≠ []) →
      (∀ c ∈ last, isTerm c = false) →
      messagesOf (joinPairs pairs ++ last) =
        (if 0 < ((pairs.map (fun q =>
              if trimChars q.1 = [] then [] else [trimChars q.1 ++ q.2])).flatten ++
              (if trimChars last = [] then [] else [trimChars last])).length
         then (pairs.map (fun q =>
              if trimChars q.1 = [] then [] else [trimChars q.1 ++ q.2])).flatten ++
              (if trimChars last = [] then [] else [trimChars last])
         else [joinPairs pairs ++ last])) ∧
    (∀ text : List Char, ∃ pairs last,
      (∀ q ∈ pairs,
        (∀ c ∈ q.1, isTerm c = false) ∧ q.2 ≠ [] ∧ (∀ c ∈ q.2, isTerm c = true)) ∧
      (∀ q ∈ pairs.tail, q.1 ≠ []) ∧
      (∀ c ∈ last, isTerm c = false) ∧
      joinPairs pairs ++ last = text) ∧
    (∀ text : List Char, (∀ c ∈ text, isTerm c = false) →
      (messagesOf text).length = 1) := by
  refine ⟨?_, ?_, ?_⟩
  · intro pairs last hpairs htail hlast
    have hdecomp := splitRuns_decomp pairs last hpairs htail hlast
    have hcoll := collect_decomp pairs last
    unfold messagesOf sentencesOf
    rw [hdecomp, hcoll]
    have hfilter :
        ((pairs.map (fun q =>
            if trimChars q.1 = [] then [] else [trimChars q.1 ++ q.2])).flatten ++
          (if trimChars last = [] then [] else [trimChars last])).filter
            (fun s => s.length > 0) =
        (pairs.map (fun q =>
            if trimChars q.1 = [] then [] else [trimChars q.1 ++ q.2])).flatten ++
          (if trimChars last = [] then [] else [trimChars last]) := by
      apply List.filter_eq_self.mpr
      intro a ha
      simp only [List.mem_append, List.mem_flatten, List.mem_map] at ha
      rcases ha with ⟨l, ⟨q, _, rfl⟩, hal⟩ | ha
      · by_cases h : trimChars q.1 = []
        · rw [if_pos h] at hal
          simp at hal
        · rw [if_neg h] at hal
          simp only [List.mem_singleton] at hal
          subst hal
          cases htq : trimChars q.1 with
          | nil => exact absurd htq h
          | cons x xs => simp [htq]
      · by_cases h : trimChars last = []
        · rw [if_pos h] at ha
          simp at ha
        · rw [if_neg h] at ha
          simp only [List.mem_singleton] at ha
          subst ha
          cases htq : trimChars last with
          | nil => exact absurd htq h
          | cons x xs => simp [htq]
    rw [hfilter]
  · intro text
    obtain ⟨pairs, last, h1, h2, h3, _, h5⟩ :=
      decomp_exists_aux text.length text le_rfl
    exact ⟨pairs, last, h1, h2, h3, h5⟩
  · intro text hfree
    unfold messagesOf sentencesOf
    have hsingle : splitRuns text = [text] := by
      unfold splitRuns
      rw [show text = text ++ [] by simp, splitRunsAux_accum false text [] [] hfree]
      simp [splitRunsAux]
    rw [hsingle]
    by_cases htrim : trimChars text = []
    · simp [collect, htrim]
    · simp only [collect, if_neg htrim]
      have : (trimChars text).length > 0 := by
        cases h : trimChars text with
        | nil => exact absurd h htrim
        | cons x xs => simp
      simp [this]

/-- Witness for `claim_C7_amended` at concrete inputs: a run after a
whitespace-only chunk is dropped with that chunk, and a text ending in a
terminator run keeps the run attached as its single unit. -/
theorem claim_C7_amended_witness :
    messagesOf "Hi! ? Bye".toList = ["Hi!".toList, "Bye".toList] ∧
    messagesOf "你好。".toList = ["你好。".toList] := by
  have h1 := claim_C7_amended.1
    [("Hi".toList, "!".toList), (" ".toList, "?".toList)] " Bye".toList
    (by decide) (by decide) (by decide)
  have h2 := claim_C7_amended.1 [("你好".toList, "。".toList)] []
    (by decide) (by decide) (by decide)
  constructor
  · exact ((by decide :
        messagesOf "Hi! ? Bye".toList =
          messagesOf (joinPairs [("Hi".toList, "!".toList), (" ".toList, "?".toList)]
            ++ " Bye".toList)).trans h1).trans (by decide)
  · exact ((by decide :
        messagesOf "你好。".toList =
          messagesOf (joinPairs [("你好".toList, "。".toList)] ++ [])).trans h2).trans
      (by decide)
/-! ## Character-level string splitting (shared)
Model of JavaScript `String.prototype.split(sep)` for a single-character
separator, used by the token verifier (`token.split('.')`), the tenant-config
envelope (`split('.')`), the storage envelope (`split(':')`) and the UUID
regex. -/

namespace Util

/-- JS `str.split(sep)` for one separator character: every occurrence splits,
empty segments are kept (so splitting the empty string yields one empty
segment). -/
def splitChar (sep : Char) : List Char → List (List Char)
  | [] => [[]]
  | c :: rest =>
    let r := splitChar sep rest
    if c = sep then [] :: r
    else
      match r with
      | [] => [[c]]
      | h :: t => (c :: h) :: t

theorem splitChar_ne_nil (sep : Char) : ∀ l, splitChar sep l ≠ [] := by
  intro l
  induction l with
  | nil => simp [splitChar]
  | cons c rest ih =>
    simp only [splitChar]
    by_cases hc : c = sep
    · simp [hc]
    · simp only [if_neg hc]
      cases hr : splitChar sep rest with
      | nil => exact absurd hr ih
      | cons h t => simp

theorem splitChar_append_sep (sep : Char) :
    ∀ (a rest : List Char), sep ∉ a →
      splitChar sep (a ++ sep :: rest) = a :: splitChar sep rest := by
  intro a
  induction a with
  | nil => intro rest _; simp [splitChar]
  | cons c a' ih =>
    intro rest hnot
    have hc : c ≠ sep := by
      intro hcs
      exact hnot (by simp [hcs])
    have ha' : sep ∉ a' := fun hmem => hnot (by simp [hmem])
    simp only [List.cons_append, splitChar, if_neg hc, List.append_eq]
    rw [ih rest ha']

theorem splitChar_no_sep (sep : Char) :
    ∀ (a : List Char), sep ∉ a → splitChar sep a = [a] := by
  intro a
  induction a with
  | nil => intro _; rfl
  | cons c a' ih =>
    intro hnot
    have hc : c ≠ sep := fun hcs => hnot (by simp [hcs])
    have ha' : sep ∉ a' := fun hmem => hnot (by simp [hmem])
    simp only [splitChar, if_neg hc, ih ha']

end Util

/-! ## Bearer-token verification
Embedding of `verifyTenantToken` from the tenant token library
(`token.js`). The HMAC-SHA256 signer (`sign(input, secret)`, already
base64url-encoded) and the payload decoding pipeline
(base64url-decode → utf8 → `JSON.parse`) are external collaborators and
appear as function parameters; everything else — the dot-split, the
structural checks, the field checks, and the single opaque error — is
embedded from the source. -/

namespace Token

/-- A decoded token payload object; `none` fields are absent properties.
JS truthiness: an absent, empty-string or zero field fails the `!payload.x`
guards. -/
structure TokenPayload where
  tid : Option String := none
  typ : Option String := none
  iat : Option Int := none
  exp : Option Int := none
  v : Option Int := none
deriving DecidableEq, Repr

/-- Result of `JSON.parse` on the decoded payload text: an object, or some
non-object JSON value (including `null`). A parse *failure* is the `none` of
the surrounding `Option`. -/
inductive Parsed where
  | obj (p : TokenPayload)
  | nonObj
deriving DecidableEq, Repr

/-- JS truthiness for an optional string property. -/
def truthyS : Option String → Bool
  | none => false
  | some s => s ≠ ""

/-- JS truthiness for an optional numeric property. -/
def truthyI : Option Int → Bool
  | none => false
  | some i => i ≠ 0

/-- Embedding of `verifyTenantToken(token, secret, {expectedTypes})`.
The buffer-length check plus `timingSafeEqual` amounts extensionally to
string equality of the received and recomputed signatures (the constant-time
aspect is a non-functional property outside the embedding). Every `throw new
Error('INVALID_TENANT_AUTH')` is `.error "INVALID_TENANT_AUTH"`. -/
def verifyTenantToken (hmacSign : String → String → String)
    (parsePayload : String → Option Parsed)
    (token secret : String) (expectedTypes : List String) (now : Int) :
    Except String TokenPayload :=
  if token = "" then .error "INVALID_TENANT_AUTH"
  else
    match Util.splitChar '.' token.toList with
    | [hd, pl, sg] =>
      let signingInput := String.mk hd ++ "." ++ String.mk pl
      let expectedSignature := hmacSign signingInput secret
      if String.mk sg ≠ expectedSignature then .error "INVALID_TENANT_AUTH"
      else
        match parsePayload (String.mk pl) with
        | none => .error "INVALID_TENANT_AUTH"
        | some .nonObj => .error "INVALID_TENANT_AUTH"
        | some (.obj p) =>
          if p.v ≠ some 1 then .error "INVALID_TENANT_AUTH"
          else if ¬ truthyS p.tid then .error "INVALID_TENANT_AUTH"
          else if ¬ truthyS p.typ then .error "INVALID_TENANT_AUTH"
          else if ¬ truthyI p.exp then .error "INVALID_TENANT_AUTH"
          else if p.exp.getD 0 ≤ now then .error "INVALID_TENANT_AUTH"
          else if expectedTypes ≠ [] ∧ p.typ.getD "" ∉ expectedTypes then
            .error "INVALID_TENANT_AUTH"
          else .ok p
    | _ => .error "INVALID_TENANT_AUTH"

/-- The claim's rejection condition, written as the spec words it: malformed
structure, signature mismatch, unparsable payload, missing `tid`/`typ`/`exp`
or wrong `v`, expiry, or a type outside the non-empty expected set. -/
def specRejects (hmacSign : String → String → String)
    (parsePayload : String → Option Parsed)
    (token secret : String) (expectedTypes : List String) (now : Int) : Bool :=
  match Util.splitChar '.' token.toList with
  | [hd, pl, sg] =>
    decide (String.mk sg ≠ hmacSign (String.mk hd ++ "." ++ String.mk pl) secret) ||
    (match parsePayload (String.mk pl) with
     | none => true
     | some .nonObj => true
     | some (.obj p) =>
       decide (p.v ≠ some 1) || !(truthyS p.tid) || !(truthyS p.typ) ||
       !(truthyI p.exp) || decide (p.exp.getD 0 ≤ now) ||
       (decide (expectedTypes ≠ []) && decide (p.typ.getD "" ∉ expectedTypes)))
  | _ => true

end Token

open Token

/-- Claim C3: token verification fails exactly when one of the listed checks
fails — malformed dot-structure, recomputed-signature mismatch, unparsable or
non-object payload, missing/falsy `tid`/`typ`/`exp` or `v ≠ 1`, `exp ≤ now`,
or a `typ` outside a non-empty `expectedTypes` — and every rejection carries
the same single opaque `INVALID_TENANT_AUTH` error. -/
theorem claim_C3 (hmacSign : String → String → String)
    (parsePayload : String → Option Parsed)
    (token secret : String) (expectedTypes : List String) (now : Int) :
    ((∃ e, verifyTenantToken hmacSign parsePayload token secret expectedTypes now =
        .error e) ↔
      specRejects hmacSign parsePayload token secret expectedTypes now = true) ∧
    (∀ e, verifyTenantToken hmacSign parsePayload token secret expectedTypes now =
        .error e → e = "INVALID_TENANT_AUTH") := by
  unfold verifyTenantToken specRejects
  by_cases htok : token = ""
  · subst htok
    constructor
    · simp [Util.splitChar]
    · intro e he
      simp at he
      exact he.symm
  · rw [if_neg htok]
    split
    · rename_i hd pl sg heq
      by_cases hsig :
          String.mk sg ≠ hmacSign (String.mk hd ++ "." ++ String.mk pl) secret
      · simp [hsig]
      · rw [if_neg hsig]
        simp only [hsig, decide_False, Bool.false_or]
        cases hps : parsePayload (String.mk pl) with
        | none => simp
        | some parsed =>
          cases parsed with
          | nonObj => simp
          | obj p =>
            dsimp only
            constructor
            · split_ifs with h1 h2 h3 h4 h5 h6 <;>
                simp_all
            · intro e he
              split_ifs at he <;> simp_all
    · constructor
      · simp
      · intro e he
        simp at he
        exact he.symm

/-! ## Schedule-message validation, task assembly, and update merge
Embedding of `validateScheduleMessagePayload` (`lib/validation.js`), the
`fullTaskData` assembly in `createScheduleMessageHandler`
(`handlers/schedule-message.js`), and the merge in
`createUpdateMessageHandler` (`handlers/send-notifications.js`).
`new Date(...)` parsing and `new URL(...)` checking are external parameters
(`parseDate`, `validUrl`); the UUID regex is embedded concretely. -/

namespace Validate

open Token (truthyS)

/-- The JSON request body of a schedule request, with only the properties the
validator and the assembly read. `none` models an absent (or falsy/non-string,
for the `typeof` checks) property; `pushSubscription`/`metadata` are presence
flags for the object-typed properties. -/
structure SchedulePayload where
  contactName : Option String := none
  messageType : Option String := none
  firstSendTime : Option String := none
  pushSubscription : Bool := false
  recurrenceType : Option String := none
  userMessage : Option String := none
  completePrompt : Option String := none
  apiUrl : Option String := none
  apiKey : Option String := none
  primaryModel : Option String := none
  avatarUrl : Option String := none
  uuid : Option String := none
  messageSubtype : Option String := none
  maxTokens : Option Int := none
  metadata : Bool := false
deriving DecidableEq, Repr

/-- Embedding of the character class `[0-9a-f]` (case-insensitive). -/
def isHexDigit (c : Char) : Bool :=
  ('0' ≤ c && c ≤ '9') || ('a' ≤ c && c ≤ 'f') || ('A' ≤ c && c ≤ 'F')

/-- Embedding of the `isValidUUID` regex
`^[0-9a-f]{8}-[0-9a-f]{4}-[0-9a-f]{4}-[0-9a-f]{4}-[0-9a-f]{12}$/i`. -/
def isValidUUID (s : String) : Bool :=
  match Util.splitChar '-' s.toList with
  | [a, b, c, d, e] =>
    a.length = 8 && b.length = 4 && c.length = 4 && d.length = 4 && e.length = 12 &&
    (a ++ b ++ c ++ d ++ e).all isHexDigit
  | _ => false

/-- Embedding of `validateScheduleMessagePayload(payload)`; the result is the
`errorCode` of the first failing check, or `none` when `{valid: true}`.
`parseDate` models `new Date(s).getTime()` with `none` for `NaN`
(`isValidISO8601`); `validUrl` models `isValidUrl`; `now` is `new Date()`. -/
def validateScheduleMessagePayload (parseDate : String → Option Int)
    (validUrl : String → Bool) (now : Int) (p : SchedulePayload) : Option String :=
  if ¬ truthyS p.contactName then some "INVALID_PARAMETERS"
  else if ¬ truthyS p.messageType ∨
      p.messageType.getD "" ∉ ["fixed", "prompted", "auto", "instant"] then
    some "INVALID_MESSAGE_TYPE"
  else if ¬ truthyS p.firstSendTime ∨ parseDate (p.firstSendTime.getD "") = none then
    some "INVALID_TIMESTAMP"
  else if (parseDate (p.firstSendTime.getD "")).getD 0 ≤ now then
    some "INVALID_TIMESTAMP"
  else if ¬ p.pushSubscription then some "INVALID_PARAMETERS"
  else if truthyS p.recurrenceType ∧
      p.recurrenceType.getD "" ∉ ["none", "daily", "weekly"] then
    some "INVALID_PARAMETERS"
  else if p.messageType.getD "" = "fixed" ∧ ¬ truthyS p.userMessage then
    some "INVALID_PARAMETERS"
  else if (p.messageType.getD "" = "prompted" ∨ p.messageType.getD "" = "auto") ∧
      ¬ (truthyS p.completePrompt ∧ truthyS p.apiUrl ∧ truthyS p.apiKey ∧
         truthyS p.primaryModel) then
    some "INVALID_PARAMETERS"
  else if p.messageType.getD "" = "instant" ∧ truthyS p.recurrenceType ∧
      p.recurrenceType.getD "" ≠ "none" then
    some "INVALID_PARAMETERS"
  else if p.messageType.getD "" = "instant" ∧
      ¬ (truthyS p.completePrompt ∧ truthyS p.apiUrl ∧ truthyS p.apiKey ∧
         truthyS p.primaryModel) ∧ ¬ truthyS p.userMessage then
    some "INVALID_PARAMETERS"
  else if truthyS p.avatarUrl ∧ ¬ validUrl (p.avatarUrl.getD "") then
    some "INVALID_PARAMETERS"
  else if truthyS p.uuid ∧ ¬ isValidUUID (p.uuid.getD "") then
    some "INVALID_PARAMETERS"
  else if truthyS p.messageSubtype ∧
      p.messageSubtype.getD "" ∉ ["chat", "forum", "moment"] then
    some "INVALID_PARAMETERS"
  else none

/-- JS `x || null` on an optional string property. -/
def orNull (o : Option String) : Option String :=
  match o with
  | some s => if s = "" then none else some s
  | none => none

/-- The decrypted content of a stored `encrypted_payload`: the `fullTaskData`
object assembled by `createScheduleMessageHandler`. -/
structure TaskData where
  contactName : String
  avatarUrl : Option String
  messageType : String
  messageSubtype : String
  userMessage : Option String
  firstSendTime : String
  recurrenceType : String
  apiUrl : Option String
  apiKey : Option String
  primaryModel : Option String
  completePrompt : Option String
  maxTokens : Option Int
  pushSubscription : Bool
  metadata : Bool
deriving DecidableEq, Repr

/-- Embedding of the `fullTaskData` literal (schedule-message handler):
in particular `recurrenceType: payload.recurrenceType || 'none'` and
`maxTokens: payload.maxTokens ?? null`. -/
def fullTaskData (p : SchedulePayload) : TaskData :=
  { contactName := p.contactName.getD ""
    avatarUrl := orNull p.avatarUrl
    messageType := p.messageType.getD ""
    messageSubtype := if truthyS p.messageSubtype then p.messageSubtype.getD "" else "chat"
    userMessage := orNull p.userMessage
    firstSendTime := p.firstSendTime.getD ""
    recurrenceType := if truthyS p.recurrenceType then p.recurrenceType.getD "" else "none"
    apiUrl := orNull p.apiUrl
    apiKey := orNull p.apiKey
    primaryModel := orNull p.primaryModel
    completePrompt := orNull p.completePrompt
    maxTokens := p.maxTokens
    pushSubscription := p.pushSubscription
    metadata := p.metadata }

/-- The decrypted update-request body (`createUpdateMessageHandler`). -/
structure UpdatePayload where
  completePrompt : Option String := none
  userMessage : Option String := none
  recurrenceType : Option String := none
  avatarUrl : Option String := none
  nextSendAt : Option String := none
  metadata : Bool := false
deriving DecidableEq, Repr

/-- The update handler's `recurrenceType` guard:
`updates.recurrenceType && !['none','daily','weekly'].includes(...)` → 400. -/
def updateRecurrenceOk (u : UpdatePayload) : Bool :=
  !(truthyS u.recurrenceType) ||
    decide (u.recurrenceType.getD "" ∈ ["none", "daily", "weekly"])

/-- Embedding of the `updatedData` spread-merge in `createUpdateMessageHandler`:
each truthy update property overrides the decrypted existing value. -/
def mergeUpdate (existing : TaskData) (u : UpdatePayload) : TaskData :=
  { existing with
    completePrompt :=
      if truthyS u.completePrompt then u.completePrompt else existing.completePrompt
    userMessage := if truthyS u.userMessage then u.userMessage else existing.userMessage
    recurrenceType :=
      if truthyS u.recurrenceType then u.recurrenceType.getD ""
      else existing.recurrenceType
    avatarUrl := if truthyS u.avatarUrl then u.avatarUrl else existing.avatarUrl }

theorem ifChain_none {α : Type} {c : Prop} [Decidable c] {e : α} {rest : Option α} :
    (if c then some e else rest) = none → ¬ c ∧ rest = none := by
  intro h
  by_cases hc : c
  · rw [if_pos hc] at h
    exact absurd h (by simp)
  · rw [if_neg hc] at h
    exact ⟨hc, h⟩

end Validate

open Validate

/-- Claim C10: a validated schedule request always stores a `recurrenceType`
in `{none, daily, weekly}` (defaulting to `none`); a validated update merge
preserves that range; and the dispatcher's success path, fed any in-range
`recurrenceType`, always completes normally (deleting or rescheduling the
row) — it never falls into the out-of-range branch. -/
theorem claim_C10 (parseDate : String → Option Int) (validUrl : String → Bool)
    (now : Int) (p : SchedulePayload) (existing : TaskData) (u : UpdatePayload) :
    (validateScheduleMessagePayload parseDate validUrl now p = none →
      (fullTaskData p).recurrenceType ∈ ["none", "daily", "weekly"]) ∧
    (existing.recurrenceType ∈ ["none", "daily", "weekly"] →
      updateRecurrenceOk u = true →
      (mergeUpdate existing u).recurrenceType ∈ ["none", "daily", "weekly"]) ∧
    (∀ (env : Dispatch.Env) (task : Dispatch.TaskRow),
      env.deliveryResult = none →
      env.recurrenceType ∈ ["none", "daily", "weekly"] →
      env.successDeleteThrows = false → env.successUpdateThrows = false →
      (Dispatch.processTask env task).successCount = 1) := by
  refine ⟨?_, ?_, ?_⟩
  · intro hvalid
    unfold validateScheduleMessagePayload at hvalid
    by_cases htr : truthyS p.recurrenceType
    · by_cases hmem : p.recurrenceType.getD "" ∈ ["none", "daily", "weekly"]
      · simp only [fullTaskData, htr, if_true]
        exact hmem
      · exfalso
        have s1 := ifChain_none hvalid
        have s2 := ifChain_none s1.2
        have s3 := ifChain_none s2.2
        have s4 := ifChain_none s3.2
        have s5 := ifChain_none s4.2
        have s6 := ifChain_none s5.2
        exact s6.1 ⟨htr, hmem⟩
    · simp [fullTaskData, htr]
  · intro hex hok
    by_cases htr : truthyS u.recurrenceType
    · simp only [updateRecurrenceOk, htr, Bool.not_true, Bool.false_or,
        decide_eq_true_eq] at hok
      simpa [mergeUpdate, htr] using hok
    · simpa [mergeUpdate, htr] using hex
  · intro env task hdeliv hmem hdel hupd
    simp only [List.mem_cons, List.mem_singleton, List.not_mem_nil, or_false] at hmem
    rcases hmem with hrec | hrec | hrec <;>
      simp [Dispatch.processTask, hdeliv, hrec, hdel, hupd]

/-- A concrete valid `fixed` schedule request without a `recurrenceType`. -/
def c10Payload : SchedulePayload :=
  { contactName := some "Rei", messageType := some "fixed"
    firstSendTime := some "2031-01-01T00:00:00Z", pushSubscription := true
    userMessage := some "hello" }

/-- Witness for `claim_C10` at a concrete input: a validated `fixed` request
without a `recurrenceType` stores `"none"`. -/
theorem claim_C10_witness :
    (fullTaskData c10Payload).recurrenceType ∈ ["none", "daily", "weekly"] := by
  have h := claim_C10 (fun _ => some 100) (fun _ => true) 0 c10Payload
    (fullTaskData c10Payload) { }
  exact h.1 (by rfl)

/-! ## Byte-text codecs
Concrete models of `Buffer.prototype.toString('hex'/'base64')` and
`Buffer.from(str, 'hex'/'base64')` on canonical inputs, used by the envelope
functions. Bytes are `Nat` values with explicit `< 256` bounds. -/

namespace Codec

/-- Lower-case hex digit of a value `< 16`. -/
def hexDigit (n : Nat) : Char :=
  if n < 10 then Char.ofNat ('0'.toNat + n) else Char.ofNat ('a'.toNat + (n - 10))

/-- `Buffer.toString('hex')`: two lowercase digits per byte. -/
def hexEncode : List Nat → List Char
  | [] => []
  | b :: bs => hexDigit (b / 16) :: hexDigit (b % 16) :: hexEncode bs

/-- Value of a hex digit character (case-insensitive), `none` otherwise. -/
def hexDigitVal (c : Char) : Option Nat :=
  if '0' ≤ c ∧ c ≤ '9' then some (c.toNat - '0'.toNat)
  else if 'a' ≤ c ∧ c ≤ 'f' then some (c.toNat - 'a'.toNat + 10)
  else if 'A' ≤ c ∧ c ≤ 'F' then some (c.toNat - 'A'.toNat + 10)
  else none

/-- `Buffer.from(str, 'hex')` on well-formed input: digit pairs to bytes. -/
def hexDecode : List Char → Option (List Nat)
  | [] => some []
  | c1 :: c2 :: rest =>
    match hexDigitVal c1, hexDigitVal c2, hexDecode rest with
    | some h, some l, some bs => some ((h * 16 + l) :: bs)
    | _, _, _ => none
  | [_] => none

theorem hexDigitVal_hexDigit : ∀ n, n < 16 → hexDigitVal (hexDigit n) = some n := by
  decide

theorem hexDigit_ne_colon : ∀ n, n < 16 → hexDigit n ≠ ':' := by
  decide

theorem hexDecode_hexEncode : ∀ bs, (∀ b ∈ bs, b < 256) →
    hexDecode (hexEncode bs) = some bs := by
  intro bs
  induction bs with
  | nil => intro _; simp [hexEncode, hexDecode]
  | cons b bs ih =>
    intro hall
    have hb : b < 256 := hall b (by simp)
    have hbs : ∀ x ∈ bs, x < 256 := fun x hx => hall x (by simp [hx])
    have hdiv : b / 16 < 16 := by omega
    have hmod : b % 16 < 16 := by omega
    have hval : b / 16 * 16 + b % 16 = b := by omega
    simp only [hexEncode, hexDecode, hexDigitVal_hexDigit _ hdiv,
      hexDigitVal_hexDigit _ hmod, ih hbs, hval]

theorem hexEncode_no_colon : ∀ bs, (∀ b ∈ bs, b < 256) → ':' ∉ hexEncode bs := by
  intro bs
  induction bs with
  | nil => intro _ h; simp [hexEncode] at h
  | cons b bs ih =>
    intro hall hmem
    have hb : b < 256 := hall b (by simp)
    have hbs : ∀ x ∈ bs, x < 256 := fun x hx => hall x (by simp [hx])
    simp only [hexEncode, List.mem_cons] at hmem
    rcases hmem with h | h | h
    · exact hexDigit_ne_colon (b / 16) (by omega) h.symm
    · exact hexDigit_ne_colon (b % 16) (by omega) h.symm
    · exact ih hbs h

/-- Character of a 6-bit value in the standard base64 alphabet. -/
def b64Char (n : Nat) : Char :=
  if n < 26 then Char.ofNat ('A'.toNat + n)
  else if n < 52 then Char.ofNat ('a'.toNat + (n - 26))
  else if n < 62 then Char.ofNat ('0'.toNat + (n - 52))
  else if n = 62 then '+'
  else '/'

/-- 6-bit value of a standard base64 character, `none` otherwise. -/
def b64Val (c : Char) : Option Nat :=
  if 'A' ≤ c ∧ c ≤ 'Z' then some (c.toNat - 'A'.toNat)
  else if 'a' ≤ c ∧ c ≤ 'z' then some (c.toNat - 'a'.toNat + 26)
  else if '0' ≤ c ∧ c ≤ '9' then some (c.toNat - '0'.toNat + 52)
  else if c = '+' then some 62
  else if c = '/' then some 63
  else none

/-- `Buffer.toString('base64')`: 3-byte groups to 4 characters, final short
group padded with `=`. -/
def b64Encode : List Nat → List Char
  | [] => []
  | [a] => [b64Char (a / 4), b64Char (a % 4 * 16), '=', '=']
  | [a, b] => [b64Char (a / 4), b64Char (a % 4 * 16 + b / 16), b64Char (b % 16 * 4), '=']
  | a :: b :: c :: rest =>
    b64Char (a / 4) :: b64Char (a % 4 * 16 + b / 16) ::
      b64Char (b % 16 * 4 + c / 64) :: b64Char (c % 64) :: b64Encode rest

/-- `Buffer.from(str, 'base64')` on canonical input: 4-character groups to
bytes, `=`-padding allowed in the final group only. -/
def b64Decode : List Char → Option (List Nat)
  | [] => some []
  | c1 :: c2 :: c3 :: c4 :: rest =>
    match b64Val c1, b64Val c2 with
    | some v1, some v2 =>
      if c3 = '=' then some [v1 * 4 + v2 / 16]
      else
        match b64Val c3 with
        | some v3 =>
          if c4 = '=' then some [v1 * 4 + v2 / 16, v2 % 16 * 16 + v3 / 4]
          else
            match b64Val c4, b64Decode rest with
            | some v4, some bs =>
              some ((v1 * 4 + v2 / 16) :: (v2 % 16 * 16 + v3 / 4) ::
                (v3 % 4 * 64 + v4) :: bs)
            | _, _ => none
        | none => none
    | _, _ => none
  | _ => none

theorem b64Val_b64Char : ∀ n, n < 64 → b64Val (b64Char n) = some n := by
  decide

theorem b64Char_ne_eq : ∀ n, n < 64 → b64Char n ≠ '=' := by
  decide

theorem b64Decode_b64Encode : ∀ bs, (∀ b ∈ bs, b < 256) →
    b64Decode (b64Encode bs) = some bs := by
  intro bs
  induction bs using b64Encode.induct with
  | case1 => intro _; simp [b64Encode, b64Decode]
  | case2 a =>
    intro hall
    have ha : a < 256 := hall a (by simp)
    have h1 : a / 4 * 4 + (a % 4 * 16) / 16 = a := by omega
    simp only [b64Encode, b64Decode, b64Val_b64Char (a / 4) (by omega),
      b64Val_b64Char (a % 4 * 16) (by omega), if_pos rfl, if_true, h1]
  | case3 a b =>
    intro hall
    have ha : a < 256 := hall a (by simp)
    have hb : b < 256 := hall b (by simp)
    have h1 : a / 4 * 4 + (a % 4 * 16 + b / 16) / 16 = a := by omega
    have h2 : (a % 4 * 16 + b / 16) % 16 * 16 + (b % 16 * 4) / 4 = b := by omega
    simp only [b64Encode, b64Decode, b64Val_b64Char (a / 4) (by omega),
      b64Val_b64Char (a % 4 * 16 + b / 16) (by omega),
      if_neg (b64Char_ne_eq (b % 16 * 4) (by omega)),
      b64Val_b64Char (b % 16 * 4) (by omega), if_pos rfl, if_true, h1, h2]
  | case4 a b c rest ih =>
    intro hall
    have ha : a < 256 := hall a (by simp)
    have hb : b < 256 := hall b (by simp)
    have hc : c < 256 := hall c (by simp)
    have hrest : ∀ x ∈ rest, x < 256 := fun x hx => hall x (by simp [hx])
    have h1 : a / 4 * 4 + (a % 4 * 16 + b / 16) / 16 = a := by omega
    have h2 : (a % 4 * 16 + b / 16) % 16 * 16 + (b % 16 * 4 + c / 64) / 4 = b := by
      omega
    have h3 : (b % 16 * 4 + c / 64) % 4 * 64 + c % 64 = c := by omega
    simp only [b64Encode, b64Decode, b64Val_b64Char (a / 4) (by omega),
      b64Val_b64Char (a % 4 * 16 + b / 16) (by omega),
      if_neg (b64Char_ne_eq (b % 16 * 4 + c / 64) (by omega)),
      b64Val_b64Char (b % 16 * 4 + c / 64) (by omega),
      if_neg (b64Char_ne_eq (c % 64) (by omega)),
      b64Val_b64Char (c % 64) (by omega), ih hrest, h1, h2, h3]

end Codec

/-! ## Envelope crypto
Embedding of `encryptPayload`/`decryptPayload` (JSON transport envelope,
12-byte IV, base64 fields) and `encryptForStorage`/`decryptFromStorage`
(compact colon-delimited hex envelope, 16-byte IV) from `lib/encryption.js`.
The AES-256-GCM core of Node's `crypto` is the external parameter `Gcm`
(its plaintext side absorbs the utf8 byte coding); `JSON.stringify`/`parse`
for the transport envelope are the parameters `stringify`/`parse`. -/

namespace Envelope

/-- The external AES-256-GCM core: `enc key iv plaintext = (ciphertext,
authTag)`; `dec key iv ciphertext authTag` returns the plaintext or `none`
when the authentication tag does not verify (the `DecryptionFailed` throw). -/
structure Gcm where
  enc : List Nat → List Nat → String → List Nat × List Nat
  dec : List Nat → List Nat → List Nat → List Nat → Option String

open Codec

/-- Embedding of `encryptForStorage(text, encryptionKey)`: fresh 16-byte `iv`
(passed in, as the model of `randomBytes(16)`), AES-256-GCM, envelope
`iv:authTag:ciphertext` in hex. `none` models the `createCipheriv` throw on a
key that is not valid hex. -/
def encryptForStorage (g : Gcm) (iv : List Nat) (text encryptionKey : String) :
    Option String :=
  match hexDecode encryptionKey.toList with
  | none => none
  | some keyBytes =>
    let r := g.enc keyBytes iv text
    some (String.mk (hexEncode iv ++ (':' :: (hexEncode r.2 ++ (':' :: hexEncode r.1)))))

/-- Embedding of `decryptFromStorage(encryptedText, encryptionKey)`:
destructure the first three `:`-separated fields, hex-decode each, decrypt
with tag verification. -/
def decryptFromStorage (g : Gcm) (encryptedText encryptionKey : String) :
    Option String :=
  match Util.splitChar ':' encryptedText.toList with
  | ivHex :: tagHex :: dataHex :: _ =>
    match hexDecode encryptionKey.toList, hexDecode ivHex, hexDecode tagHex,
        hexDecode dataHex with
    | some key, some iv, some tag, some data => g.dec key iv data tag
    | _, _, _, _ => none
  | _ => none

/-- The JSON transport envelope `{iv, authTag, encryptedData}`, each field
independently base64. -/
structure EncryptedBody where
  iv : String
  authTag : String
  encryptedData : String
deriving DecidableEq, Repr

/-- Embedding of `encryptPayload(payload, encryptionKey)` for an object
payload: `JSON.stringify`, fresh 12-byte `iv` (passed in, as the model of
`randomBytes(12)`), AES-256-GCM, base64 fields. -/
def encryptPayload {J : Type} (g : Gcm) (stringify : J → String) (iv : List Nat)
    (payload : J) (encryptionKey : String) : Option EncryptedBody :=
  match hexDecode encryptionKey.toList with
  | none => none
  | some keyBytes =>
    let r := g.enc keyBytes iv (stringify payload)
    some { iv := String.mk (b64Encode iv)
           authTag := String.mk (b64Encode r.2)
           encryptedData := String.mk (b64Encode r.1) }

/-- Embedding of `decryptPayload(encryptedPayload, encryptionKey)`:
base64-decode the three fields, decrypt with tag verification, `JSON.parse`
the plaintext. -/
def decryptPayload {J : Type} (g : Gcm) (parse : String → Option J)
    (body : EncryptedBody) (encryptionKey : String) : Option J :=
  match hexDecode encryptionKey.toList, b64Decode body.iv.toList,
      b64Decode body.authTag.toList, b64Decode body.encryptedData.toList with
  | some keyBytes, some iv, some tag, some data =>
    match g.dec keyBytes iv data tag with
    | some plaintext => parse plaintext
    | none => none
  | _, _, _, _ => none

theorem toList_mk (l : List Char) : (String.mk l).toList = l := rfl

end Envelope

open Envelope Codec

/-- Claim C5: decrypt-of-encrypt round trip for both envelope shapes. For
every key (valid hex), every IV, and a cipher core whose decryption inverts
its encryption on the given input (the AES-GCM contract), the JSON transport
envelope returns the original payload (via the `JSON.parse`/`stringify`
inverse), and the compact storage envelope returns the original text. -/
theorem claim_C5 {J : Type} (g : Gcm) (stringify : J → String)
    (parse : String → Option J) (encryptionKey text : String) (payload : J)
    (keyBytes iv12 iv16 : List Nat)
    (hkey : hexDecode encryptionKey.toList = some keyBytes)
    (hjson : parse (stringify payload) = some payload)
    (hdec12 : g.dec keyBytes iv12 (g.enc keyBytes iv12 (stringify payload)).1
      (g.enc keyBytes iv12 (stringify payload)).2 = some (stringify payload))
    (hdec16 : g.dec keyBytes iv16 (g.enc keyBytes iv16 text).1
      (g.enc keyBytes iv16 text).2 = some text)
    (hiv12 : ∀ b ∈ iv12, b < 256) (hiv16 : ∀ b ∈ iv16, b < 256)
    (hct12 : ∀ b ∈ (g.enc keyBytes iv12 (stringify payload)).1, b < 256)
    (htag12 : ∀ b ∈ (g.enc keyBytes iv12 (stringify payload)).2, b < 256)
    (hct16 : ∀ b ∈ (g.enc keyBytes iv16 text).1, b < 256)
    (htag16 : ∀ b ∈ (g.enc keyBytes iv16 text).2, b < 256) :
    (∃ body, encryptPayload g stringify iv12 payload encryptionKey = some body ∧
      decryptPayload g parse body encryptionKey = some payload) ∧
    (∃ e, encryptForStorage g iv16 text encryptionKey = some e ∧
      decryptFromStorage g e encryptionKey = some text) := by
  constructor
  · refine ⟨{ iv := String.mk (b64Encode iv12)
              authTag := String.mk (b64Encode (g.enc keyBytes iv12 (stringify payload)).2)
              encryptedData :=
                String.mk (b64Encode (g.enc keyBytes iv12 (stringify payload)).1) },
      ?_, ?_⟩
    · unfold encryptPayload
      rw [hkey]
    · unfold decryptPayload
      simp only [toList_mk, hkey, b64Decode_b64Encode iv12 hiv12,
        b64Decode_b64Encode _ htag12, b64Decode_b64Encode _ hct12, hdec12, hjson]
  · refine ⟨String.mk (hexEncode iv16 ++ (':' :: (hexEncode (g.enc keyBytes iv16 text).2 ++
        (':' :: hexEncode (g.enc keyBytes iv16 text).1)))), ?_, ?_⟩
    · unfold encryptForStorage
      rw [hkey]
    · unfold decryptFromStorage
      have hsplit :
          Util.splitChar ':'
            (String.mk (hexEncode iv16 ++ (':' :: (hexEncode (g.enc keyBytes iv16 text).2 ++
              (':' :: hexEncode (g.enc keyBytes iv16 text).1))))).toList =
          [hexEncode iv16, hexEncode (g.enc keyBytes iv16 text).2,
            hexEncode (g.enc keyBytes iv16 text).1] := by
        rw [toList_mk,
          Util.splitChar_append_sep ':' (hexEncode iv16) _ (hexEncode_no_colon iv16 hiv16),
          Util.splitChar_append_sep ':' _ _ (hexEncode_no_colon _ htag16),
          Util.splitChar_no_sep ':' _ (hexEncode_no_colon _ hct16)]
      rw [hsplit]
      simp only [hkey, hexDecode_hexEncode iv16 hiv16, hexDecode_hexEncode _ htag16,
        hexDecode_hexEncode _ hct16, hdec16]

/-- A toy cipher core satisfying the AES-GCM inversion contract on ASCII
inputs, used to instantiate the round-trip theorem concretely. -/
def toyGcm : Gcm :=
  { enc := fun _ _ s => (s.toList.map Char.toNat, [7])
    dec := fun _ _ data _ => some (String.mk (data.map Char.ofNat)) }

/-- Witness for `claim_C5` at a concrete input: key `"00"`, text `"hi"`,
identity JSON coding, 12- and 16-byte zero IVs. -/
theorem claim_C5_witness :
    (∃ body, encryptPayload toyGcm (fun s => s) (List.replicate 12 0) "hi" "00" =
        some body ∧
      decryptPayload toyGcm (fun s => some s) body "00" = some "hi") ∧
    (∃ e, encryptForStorage toyGcm (List.replicate 16 0) "hi" "00" = some e ∧
      decryptFromStorage toyGcm e "00" = some "hi") := by
  exact claim_C5 toyGcm (fun s => s) (fun s => some s) "00" "hi" "hi" [0]
    (List.replicate 12 0) (List.replicate 16 0)
    (by decide) rfl (by decide) (by decide) (by decide) (by decide)
    (by decide) (by decide) (by decide) (by decide)

/-! ## Tenant resolution
Embedding of `resolveTenant` from the tenant context manager together with
`createTenantBlobStore.getTenantConfig` and `decryptConfig` (tenant blob
library). The blob store is a map parameter; base64url byte decoding
(`Buffer.from(..., 'base64')`, which never throws), the KEK cipher core and
`JSON.parse` of the config are external parameters. The adapter cache
(`getOrCreateAdapter`) is out of scope of the modelled claim. -/

namespace Tenant

/-- The decrypted tenant configuration blob. -/
structure TenantConfig where
  tenantId : String
  driver : String
  connectionString : String
  masterKey : String
deriving DecidableEq, Repr

/-- The distinct exceptions `decryptConfig` can throw: the
`INVALID_TENANT_CONFIG` structure error, the GCM authentication failure from
`decipher.final()`, and the `JSON.parse` SyntaxError. None of them is caught
by `resolveTenant`. -/
inductive ConfigError where
  | invalidTenantConfig
  | authFailure
  | parseError
deriving DecidableEq, Repr

/-- Embedding of `decryptConfig(encrypted, kekBuffer)`: split on `.`, require
exactly 4 parts with version tag `v1`, base64url-decode `iv`/`tag`/`ct`,
AES-256-GCM-decrypt under the KEK, `JSON.parse` the plaintext. -/
def decryptConfig (g : Envelope.Gcm) (b64u : String → List Nat)
    (parseConfig : String → Option TenantConfig) (kek : List Nat)
    (encrypted : String) : Except ConfigError TenantConfig :=
  match Util.splitChar '.' encrypted.toList with
  | [v, ivS, tagS, ctS] =>
    if String.mk v ≠ "v1" then .error .invalidTenantConfig
    else
      match g.dec kek (b64u (String.mk ivS)) (b64u (String.mk ctS))
          (b64u (String.mk tagS)) with
      | none => .error .authFailure
      | some plaintext =>
        match parseConfig plaintext with
        | some c => .ok c
        | none => .error .parseError
  | _ => .error .invalidTenantConfig

/-- Embedding of `getTenantConfig(tenantId)`: look up `tenant/{tenantId}` in
the blob store; `null` when absent, otherwise decrypt — any `decryptConfig`
throw propagates. -/
def getTenantConfig (g : Envelope.Gcm) (b64u : String → List Nat)
    (parseConfig : String → Option TenantConfig) (kek : List Nat)
    (store : String → Option String) (tenantId : String) :
    Except ConfigError (Option TenantConfig) :=
  match store ("tenant/" ++ tenantId) with
  | none => .ok none
  | some encrypted =>
    (decryptConfig g b64u parseConfig kek encrypted).map some

/-- What `resolveTenant` hands back when it returns (rather than throws):
either the 401 `INVALID_TENANT_AUTH` response or the resolved context. -/
inductive ResolveOutcome where
  | unauthorized (code : String)
  | resolved (tenantId tokenType masterKey : String)
deriving DecidableEq, Repr

/-- Embedding of `resolveTenant(headers, options)` after bearer-token
extraction (`token` is the extracted credential, `""` when absent): verify
the token (any verification throw is caught and mapped to the 401
`INVALID_TENANT_AUTH` body), then load the tenant blob — an absent blob is
another 401 `INVALID_TENANT_AUTH`, but a `getTenantConfig` throw is NOT
caught and propagates as the `.error` of the result. -/
def resolveTenant (g : Envelope.Gcm) (b64u : String → List Nat)
    (parseConfig : String → Option TenantConfig) (kek : List Nat)
    (store : String → Option String)
    (hmacSign : String → String → String)
    (parsePayload : String → Option Token.Parsed)
    (token secret : String) (expectedTypes : List String) (now : Int) :
    Except ConfigError ResolveOutcome :=
  if token = "" then .ok (.unauthorized "INVALID_TENANT_AUTH")
  else
    match Token.verifyTenantToken hmacSign parsePayload token secret expectedTypes now with
    | .error _ => .ok (.unauthorized "INVALID_TENANT_AUTH")
    | .ok payload =>
      match getTenantConfig g b64u parseConfig kek store (payload.tid.getD "") with
      | .error e => .error e
      | .ok none => .ok (.unauthorized "INVALID_TENANT_AUTH")
      | .ok (some cfg) =>
        .ok (.resolved cfg.tenantId (payload.typ.getD "") cfg.masterKey)

/-- A token payload that verifies under the concrete C6 environment. -/
def c6Payload : Token.TokenPayload :=
  { tid := some "t1", typ := some "tenant", exp := some 10, v := some 1 }

/-- A blob store holding a malformed (undecryptable) blob for tenant `t1`. -/
def c6BadStore : String → Option String := fun _ => some "garbage"

/-- Constant-signature HMAC used for the concrete C6 runs. -/
def c6Hmac : String → String → String := fun _ _ => "sig"

/-- Payload decoder used for the concrete C6 runs. -/
def c6Parse : String → Option Token.Parsed := fun _ => some (.obj c6Payload)

end Tenant

open Tenant

/-- Claim C6, as stated, is false at this input: the bearer token verifies,
but the stored blob fails `decryptConfig`'s format check, and `resolveTenant`
propagates the `INVALID_TENANT_CONFIG` exception instead of returning the 401
`INVALID_TENANT_AUTH` response. -/
theorem claim_C6_counterexample :
    Token.verifyTenantToken c6Hmac c6Parse "h.p.sig" "s" ["tenant"] 0 =
      .ok c6Payload ∧
    resolveTenant toyGcm (fun _ => []) (fun _ => none) [0] c6BadStore
      c6Hmac c6Parse "h.p.sig" "s" ["tenant"] 0 =
      .error .invalidTenantConfig := by
  constructor
  · rfl
  · rfl

/-- Claim C6 (amended): for a request whose bearer token verifies, an absent
tenant blob yields the single 401 `INVALID_TENANT_AUTH` outcome, but an
undecryptable blob does NOT — the `decryptConfig` exception (format,
authentication or parse failure) propagates uncaught out of `resolveTenant`;
only a present and decryptable blob resolves the tenant context. -/
theorem claim_C6_amended (g : Envelope.Gcm) (b64u : String → List Nat)
    (parseConfig : String → Option TenantConfig) (kek : List Nat)
    (store : String → Option String) (hmacSign : String → String → String)
    (parsePayload : String → Option Token.Parsed)
    (token secret : String) (expectedTypes : List String) (now : Int)
    (payload : Token.TokenPayload)
    (hver : Token.verifyTenantToken hmacSign parsePayload token secret
      expectedTypes now = .ok payload) :
    (store ("tenant/" ++ payload.tid.getD "") = none →
      resolveTenant g b64u parseConfig kek store hmacSign parsePayload token
        secret expectedTypes now = .ok (.unauthorized "INVALID_TENANT_AUTH")) ∧
    (∀ enc e, store ("tenant/" ++ payload.tid.getD "") = some enc →
      decryptConfig g b64u parseConfig kek enc = .error e →
      resolveTenant g b64u parseConfig kek store hmacSign parsePayload token
        secret expectedTypes now = .error e) ∧
    (∀ enc cfg, store ("tenant/" ++ payload.tid.getD "") = some enc →
      decryptConfig g b64u parseConfig kek enc = .ok cfg →
      resolveTenant g b64u parseConfig kek store hmacSign parsePayload token
        secret expectedTypes now =
        .ok (.resolved cfg.tenantId (payload.typ.getD "") cfg.masterKey)) := by
  have htok : token ≠ "" := by
    intro h
    rw [h] at hver
    rw [Token.verifyTenantToken, if_pos rfl] at hver
    exact Except.noConfusion hver
  refine ⟨fun habs => ?_, fun enc e henc hdec => ?_, fun enc cfg henc hdec => ?_⟩
  · simp [resolveTenant, htok, hver, getTenantConfig, habs]
  · simp [resolveTenant, htok, hver, getTenantConfig, henc, hdec, Except.map]
  · simp [resolveTenant, htok, hver, getTenantConfig, henc, hdec, Except.map]

/-- Witness for `claim_C6_amended` at a concrete input: the token verifies and
no blob exists, so resolution answers the 401 `INVALID_TENANT_AUTH`. -/
theorem claim_C6_amended_witness :
    resolveTenant toyGcm (fun _ => []) (fun _ => none) [0] (fun _ => none)
      c6Hmac c6Parse "h.p.sig" "s" ["tenant"] 0 =
      .ok (.unauthorized "INVALID_TENANT_AUTH") := by
  have h := claim_C6_amended toyGcm (fun _ => []) (fun _ => none) [0]
    (fun _ => none) c6Hmac c6Parse "h.p.sig" "s" ["tenant"] 0 c6Payload rfl
  exact h.1 rfl

end ReiStandard
